import Mathlib

/-!
Verification of the CoilSnake space-allocator / pointer-relocation core.

Shallow embedding conventions:
* A binary image (ROM / Block) is a byte map `Nat → Nat`; every write stores a
  value already reduced mod 256, exactly as the Python source masks with
  `& 0xff` before storing.
* Python bitwise operations on the non-negative pointer values are translated
  arithmetically: `x & 0xff` becomes `x % 0x100`, `x >> k` becomes `x / 2 ^ k`,
  `x << k` becomes `x * 2 ^ k`, and `|` of byte fields shifted into disjoint
  positions becomes `+` (equal to `|` since each field is below its shift).
* Addresses fed to the SNES address conversions are `Int`, because
  `from_snes_address` distinguishes negative inputs; the Python `raise` is
  translated to `Option` (`none` = raise).
-/

set_option maxRecDepth 4000

/-- Pointwise update of a byte map, the translation of `block[i] = v`. -/
def writeByte (block : Nat → Nat) (i v : Nat) : Nat → Nat :=
  fun j => if j = i then v else block j

theorem writeByte_eq (block : Nat → Nat) (i v : Nat) : writeByte block i v i = v := by
  simp [writeByte]

theorem writeByte_ne (block : Nat → Nat) (i v j : Nat) (h : j ≠ i) :
    writeByte block i v j = block j := by
  simp [writeByte, h]

/-- The all-zero binary image, used for concrete evaluations. -/
def zeroBlock : Nat → Nat := fun _ => 0

/-- Translation of `pointer.py:from_snes_address`: raises (returns `none`) on a
negative address, subtracts the bank bias `0xc00000` above the bias, and is the
identity otherwise. -/
def from_snes_address (address : Int) : Option Int :=
  if address < 0 then none
  else if address ≥ 0xc00000 then some (address - 0xc00000)
  else some address

/-- Translation of `pointer.py:to_snes_address`: identity at or above
`0x400000`, otherwise adds the bank bias `0xc00000`. -/
def to_snes_address (address : Int) : Int :=
  if address ≥ 0x400000 then address else address + 0xc00000

/-- Translation of `pointer.py:read_asm_pointer`: two little-endian 16-bit
halves at `offset+1,offset+2` and `offset+6,offset+7`, concatenated. -/
def read_asm_pointer (block : Nat → Nat) (offset : Nat) : Nat :=
  (block (offset + 1) + block (offset + 2) * 0x100) +
    (block (offset + 6) + block (offset + 7) * 0x100) * 0x10000

/-- Translation of `pointer.py:write_asm_pointer`: stores the four bytes of
`pointer` at `offset+1`, `offset+2`, `offset+6`, `offset+7`. -/
def write_asm_pointer (block : Nat → Nat) (offset pointer : Nat) : Nat → Nat :=
  writeByte
    (writeByte
      (writeByte
        (writeByte block (offset + 1) (pointer % 0x100))
        (offset + 2) (pointer / 0x100 % 0x100))
      (offset + 6) (pointer / 0x10000 % 0x100))
    (offset + 7) (pointer / 0x1000000 % 0x100)

/-- Translation of `pointer.py:write_xl_pointer`: stores the three low bytes of
`pointer` at `offset+1`, `offset+2`, `offset+3` (note: not at `offset`). -/
def write_xl_pointer (block : Nat → Nat) (offset pointer : Nat) : Nat → Nat :=
  writeByte
    (writeByte
      (writeByte block (offset + 1) (pointer % 0x100))
      (offset + 2) (pointer / 0x100 % 0x100))
    (offset + 3) (pointer / 0x10000 % 0x100)

/-- Modelled from the spec: `Block.read_multi` (the byte-buffer class is not in
`src/`); the spec requires multi-byte little-endian read at arbitrary offsets,
so this reads `size` bytes starting at `offset`, little-endian. -/
def read_multi (block : Nat → Nat) (offset : Nat) : Nat → Nat
  | 0 => 0
  | n + 1 => block offset + read_multi block (offset + 1) n * 0x100

/-- Translation of `pointer.py:AsmPointerReference`. -/
structure AsmPointerReference where
  offset : Nat

/-- Translation of `AsmPointerReference.write`. -/
def AsmPointerReference.write (self : AsmPointerReference) (rom : Nat → Nat)
    (address : Nat) : Nat → Nat :=
  write_asm_pointer rom self.offset address

/-- Translation of `pointer.py:XlPointerReference`. -/
structure XlPointerReference where
  offset : Nat
  adjustment : Nat := 0

/-- Translation of `XlPointerReference.write`: the adjustment is added before
encoding. -/
def XlPointerReference.write (self : XlPointerReference) (rom : Nat → Nat)
    (address : Nat) : Nat → Nat :=
  write_xl_pointer rom self.offset (address + self.adjustment)

/-- Translation of `XlPointerReference.read`: three little-endian bytes at
`self.offset`, minus the adjustment. -/
def XlPointerReference.read (self : XlPointerReference) (rom : Nat → Nat) : Nat :=
  read_multi rom self.offset 3 - self.adjustment

/-- Translation of `pointer.py:BankByteReference`. -/
structure BankByteReference where
  offset : Nat

/-- Translation of `BankByteReference.write`: stores only the bank byte. -/
def BankByteReference.write (self : BankByteReference) (rom : Nat → Nat)
    (address : Nat) : Nat → Nat :=
  writeByte rom self.offset (address / 0x10000 % 0x100)

/-- Translation of `pointer.py:ShortPointerReference`. -/
structure ShortPointerReference where
  offset : Nat
  adjustment : Nat := 0

/-- Translation of `ShortPointerReference.write`: stores the low 16 bits of
`address + adjustment` little-endian at `offset`, `offset+1`. -/
def ShortPointerReference.write (self : ShortPointerReference) (rom : Nat → Nat)
    (address : Nat) : Nat → Nat :=
  writeByte
    (writeByte rom self.offset ((address + self.adjustment) % 0x100))
    (self.offset + 1) ((address + self.adjustment) / 0x100 % 0x100)

/-- C1: for every offset and every mapped address below `2^32`,
`write_asm_pointer` puts the low 16 bits of the address little-endian at
`offset+1,offset+2` and the high 16 bits little-endian at `offset+6,offset+7`,
and `read_asm_pointer` recovers the address exactly. -/
theorem asm_pointer_layout_roundtrip (block : Nat → Nat) (o a : Nat)
    (h : a < 2 ^ 32) :
    write_asm_pointer block o a (o + 1) = a % 0x100 ∧
    write_asm_pointer block o a (o + 2) = a / 0x100 % 0x100 ∧
    write_asm_pointer block o a (o + 6) = a / 0x10000 % 0x100 ∧
    write_asm_pointer block o a (o + 7) = a / 0x1000000 % 0x100 ∧
    read_asm_pointer (write_asm_pointer block o a) o = a := by
  have h1 : write_asm_pointer block o a (o + 1) = a % 0x100 := by
    unfold write_asm_pointer
    rw [writeByte_ne _ _ _ _ (by omega), writeByte_ne _ _ _ _ (by omega),
      writeByte_ne _ _ _ _ (by omega), writeByte_eq]
  have h2 : write_asm_pointer block o a (o + 2) = a / 0x100 % 0x100 := by
    unfold write_asm_pointer
    rw [writeByte_ne _ _ _ _ (by omega), writeByte_ne _ _ _ _ (by omega),
      writeByte_eq]
  have h6 : write_asm_pointer block o a (o + 6) = a / 0x10000 % 0x100 := by
    unfold write_asm_pointer
    rw [writeByte_ne _ _ _ _ (by omega), writeByte_eq]
  have h7 : write_asm_pointer block o a (o + 7) = a / 0x1000000 % 0x100 := by
    unfold write_asm_pointer
    rw [writeByte_eq]
  refine ⟨h1, h2, h6, h7, ?_⟩
  unfold read_asm_pointer
  rw [h1, h2, h6, h7]
  omega

/-- C1 witness: the spec scenario, mapped address `0x0F1234` written at offset
`0x10` puts `0x34, 0x12` at `0x11, 0x12` and `0x0F, 0x00` at `0x16, 0x17`, and
reading decodes `0x0F1234` back. -/
theorem asm_pointer_layout_roundtrip_witness :
    0x0F1234 < 2 ^ 32 ∧
    (write_asm_pointer zeroBlock 0x10 0x0F1234 (0x10 + 1) = 0x0F1234 % 0x100 ∧
     write_asm_pointer zeroBlock 0x10 0x0F1234 (0x10 + 2) = 0x0F1234 / 0x100 % 0x100 ∧
     write_asm_pointer zeroBlock 0x10 0x0F1234 (0x10 + 6) = 0x0F1234 / 0x10000 % 0x100 ∧
     write_asm_pointer zeroBlock 0x10 0x0F1234 (0x10 + 7) = 0x0F1234 / 0x1000000 % 0x100 ∧
     read_asm_pointer (write_asm_pointer zeroBlock 0x10 0x0F1234) 0x10 = 0x0F1234) :=
  ⟨by decide, asm_pointer_layout_roundtrip zeroBlock 0x10 0x0F1234 (by decide)⟩

/-- C4: the two address-space conversions invert each other on every valid flat
offset: for `0 ≤ x < 0xC00000`, `from_snes_address (to_snes_address x) = some x`. -/
theorem snes_address_conversion_inverse (x : Int) (h0 : 0 ≤ x)
    (h1 : x < 0xC00000) :
    from_snes_address (to_snes_address x) = some x := by
  unfold from_snes_address to_snes_address
  by_cases hx : x ≥ 0x400000
  · rw [if_pos hx, if_neg (by omega), if_neg (by omega)]
  · rw [if_neg hx, if_neg (by omega), if_pos (by omega)]
    simp only [Option.some.injEq]
    omega

/-- C4 witness: the inverse property at the concrete flat offset `0x123456`. -/
theorem snes_address_conversion_inverse_witness :
    (0 : Int) ≤ 0x123456 ∧ (0x123456 : Int) < 0xC00000 ∧
    from_snes_address (to_snes_address 0x123456) = some 0x123456 :=
  ⟨by decide, by decide,
    snes_address_conversion_inverse 0x123456 (by decide) (by decide)⟩

/-- C5: `from_snes_address` fails exactly on negative inputs; on a non-negative
input it subtracts the bank bias `0xC00000` when the input is at least
`0xC00000` and returns the input unchanged otherwise (it is a pure function:
the translation returns a value and touches nothing else). -/
theorem from_snes_address_spec (a : Int) :
    (from_snes_address a = none ↔ a < 0) ∧
    (0xC00000 ≤ a → from_snes_address a = some (a - 0xC00000)) ∧
    (0 ≤ a → a < 0xC00000 → from_snes_address a = some a) := by
  unfold from_snes_address
  refine ⟨?_, ?_, ?_⟩
  · constructor
    · intro h
      by_contra hneg
      rw [if_neg hneg] at h
      by_cases hc : a ≥ 0xc00000
      · rw [if_pos hc] at h
        exact Option.noConfusion h
      · rw [if_neg hc] at h
        exact Option.noConfusion h
    · intro h
      rw [if_pos h]
  · intro h
    rw [if_neg (by omega), if_pos (by omega)]
  · intro h0 h1
    rw [if_neg (by omega), if_neg (by omega)]

/-- C5 witness: the error case at `-1`, the bias case at `0xD00000`, and the
identity case at `0x123`. -/
theorem from_snes_address_spec_witness :
    from_snes_address (-1) = none ∧
    from_snes_address 0xD00000 = some 0x100000 ∧
    from_snes_address 0x123 = some 0x123 :=
  ⟨(from_snes_address_spec (-1)).1.mpr (by decide),
   by
     have h := (from_snes_address_spec 0xD00000).2.1 (by decide)
     simpa using h,
   (from_snes_address_spec 0x123).2.2 (by decide) (by decide)⟩

/-- C9: `to_snes_address` is total (it is a plain function with no error case,
unlike `from_snes_address`): every input below `0x400000` — negative inputs
included — gets the bank bias `0xC00000` added, and every input at or above
`0x400000` is returned unchanged. -/
theorem to_snes_address_total (a : Int) :
    (a < 0x400000 → to_snes_address a = a + 0xC00000) ∧
    (a < 0 → to_snes_address a = a + 0xC00000) ∧
    (0x400000 ≤ a → to_snes_address a = a) := by
  unfold to_snes_address
  refine ⟨?_, ?_, ?_⟩
  · intro h
    rw [if_neg (by omega)]
  · intro h
    rw [if_neg (by omega)]
  · intro h
    rw [if_pos (by omega)]

/-- C9 witness: the negative input `-5` maps to `0xBFFFFB` and the high input
`0x500000` is unchanged. -/
theorem to_snes_address_total_witness :
    to_snes_address (-5) = -5 + 0xC00000 ∧ to_snes_address 0x500000 = 0x500000 :=
  ⟨(to_snes_address_total (-5)).2.1 (by decide),
   (to_snes_address_total 0x500000).2.2 (by decide)⟩

/-- C2: the long little-endian (Xl) round trip fails in the code:
`XlPointerReference.write` stores the three bytes at `offset+1..offset+3`
(`write_xl_pointer`), but `XlPointerReference.read` reads the three bytes at
`offset..offset+2`, so writing mapped address `0x123456` at offset `0` into a
zeroed image and reading it back yields `0x345600`, not `0x123456`. -/
theorem xl_pointer_roundtrip_fails :
    (XlPointerReference.mk 0 0).read
        ((XlPointerReference.mk 0 0).write zeroBlock 0x123456) = 0x345600 ∧
    (0x345600 : Nat) ≠ 0x123456 := by
  constructor
  · rfl
  · decide

/-- C3 counterexample: the claim says the Xl write stores the 3-byte
little-endian value beginning at the reference's offset, so after writing
`0x123456` at offset `0` the byte at offset `0` would have to be `0x56`; in the
code it is untouched (still `0`), because `write_xl_pointer` starts at
`offset+1`. -/
theorem xl_write_not_at_offset :
    write_xl_pointer zeroBlock 0 0x123456 0 = 0 ∧ (0 : Nat) ≠ 0x56 := by
  constructor
  · rfl
  · decide

/-- C3 as amended: `write_xl_pointer` (used by `XlPointerReference.write` on
`address + adjustment`) stores the 3-byte little-endian value at offsets
`offset+1`, `offset+2`, `offset+3` — one past where the claim places it — while
`XlPointerReference.read` returns the 3-byte little-endian value of the bytes
at `offset`, `offset+1`, `offset+2`, minus the adjustment. -/
theorem xl_write_read_layout (block : Nat → Nat) (o adj a : Nat) :
    XlPointerReference.write ⟨o, adj⟩ block a (o + 1) = (a + adj) % 0x100 ∧
    XlPointerReference.write ⟨o, adj⟩ block a (o + 2) = (a + adj) / 0x100 % 0x100 ∧
    XlPointerReference.write ⟨o, adj⟩ block a (o + 3) = (a + adj) / 0x10000 % 0x100 ∧
    XlPointerReference.read ⟨o, adj⟩ block =
      block o + block (o + 1) * 0x100 + block (o + 2) * 0x10000 - adj := by
  refine ⟨?_, ?_, ?_, ?_⟩
  · unfold XlPointerReference.write write_xl_pointer
    dsimp only
    rw [writeByte_ne _ _ _ _ (by omega), writeByte_ne _ _ _ _ (by omega),
      writeByte_eq]
  · unfold XlPointerReference.write write_xl_pointer
    dsimp only
    rw [writeByte_ne _ _ _ _ (by omega), writeByte_eq]
  · unfold XlPointerReference.write write_xl_pointer
    dsimp only
    rw [writeByte_eq]
  · unfold XlPointerReference.read read_multi
    simp [read_multi]
    ring_nf

/-- C6: each pointer variant's write touches only the bytes of its fixed
field: the asm (split-immediate) write leaves every byte outside
`{offset+1, offset+2, offset+6, offset+7}` unchanged (in particular `offset`
and `offset+3..offset+5`), the bank-byte write leaves every byte other than
`offset` unchanged and stores the bank byte there, the short-pointer write
leaves every byte outside `{offset, offset+1}` unchanged and stores the low
word there, and the Xl write leaves every byte outside its 3-byte field
`{offset+1, offset+2, offset+3}` unchanged. -/
theorem pointer_writes_frame (rom : Nat → Nat) (o adj a j : Nat) :
    (j ≠ o + 1 → j ≠ o + 2 → j ≠ o + 6 → j ≠ o + 7 →
      (AsmPointerReference.mk o).write rom a j = rom j) ∧
    (j ≠ o → (BankByteReference.mk o).write rom a j = rom j) ∧
    (BankByteReference.mk o).write rom a o = a / 0x10000 % 0x100 ∧
    (j ≠ o → j ≠ o + 1 → (ShortPointerReference.mk o adj).write rom a j = rom j) ∧
    (ShortPointerReference.mk o adj).write rom a o = (a + adj) % 0x100 ∧
    (ShortPointerReference.mk o adj).write rom a (o + 1) = (a + adj) / 0x100 % 0x100 ∧
    (j ≠ o + 1 → j ≠ o + 2 → j ≠ o + 3 →
      (XlPointerReference.mk o adj).write rom a j = rom j) := by
  refine ⟨?_, ?_, ?_, ?_, ?_, ?_, ?_⟩
  · intro h1 h2 h6 h7
    unfold AsmPointerReference.write write_asm_pointer
    rw [writeByte_ne _ _ _ _ h7, writeByte_ne _ _ _ _ h6,
      writeByte_ne _ _ _ _ h2, writeByte_ne _ _ _ _ h1]
  · intro h
    unfold BankByteReference.write
    rw [writeByte_ne _ _ _ _ h]
  · unfold BankByteReference.write
    rw [writeByte_eq]
  · intro h0 h1
    unfold ShortPointerReference.write
    rw [writeByte_ne _ _ _ _ h1, writeByte_ne _ _ _ _ h0]
  · unfold ShortPointerReference.write
    dsimp only
    rw [writeByte_ne _ _ _ _ (by omega), writeByte_eq]
  · unfold ShortPointerReference.write
    dsimp only
    rw [writeByte_eq]
  · intro h1 h2 h3
    unfold XlPointerReference.write write_xl_pointer
    dsimp only
    rw [writeByte_ne _ _ _ _ h3, writeByte_ne _ _ _ _ h2,
      writeByte_ne _ _ _ _ h1]

/-- C6 witness: at offset `0x20`, writing `0x0F1234` leaves byte `0x20` (for
the asm write), byte `0x19` (for the bank-byte write), byte `0x19` (for the
short write) and byte `0x20` (for the Xl write) of the zero image unchanged,
while the bank-byte and short writes store the expected field bytes. -/
theorem pointer_writes_frame_witness :
    (AsmPointerReference.mk 0x20).write zeroBlock 0x0F1234 0x20 = zeroBlock 0x20 ∧
    (BankByteReference.mk 0x20).write zeroBlock 0x0F1234 0x19 = zeroBlock 0x19 ∧
    (BankByteReference.mk 0x20).write zeroBlock 0x0F1234 0x20 =
      0x0F1234 / 0x10000 % 0x100 ∧
    (ShortPointerReference.mk 0x20 2).write zeroBlock 0x0F1234 0x19 = zeroBlock 0x19 ∧
    (ShortPointerReference.mk 0x20 2).write zeroBlock 0x0F1234 0x20 =
      (0x0F1234 + 2) % 0x100 ∧
    (XlPointerReference.mk 0x20 2).write zeroBlock 0x0F1234 0x20 = zeroBlock 0x20 :=
  ⟨(pointer_writes_frame zeroBlock 0x20 2 0x0F1234 0x20).1
      (by decide) (by decide) (by decide) (by decide),
   (pointer_writes_frame zeroBlock 0x20 2 0x0F1234 0x19).2.1 (by decide),
   (pointer_writes_frame zeroBlock 0x20 2 0x0F1234 0x19).2.2.1,
   (pointer_writes_frame zeroBlock 0x20 2 0x0F1234 0x19).2.2.2.1
      (by decide) (by decide),
   (pointer_writes_frame zeroBlock 0x20 2 0x0F1234 0x19).2.2.2.2.1,
   (pointer_writes_frame zeroBlock 0x20 2 0x0F1234 0x20).2.2.2.2.2.2
      (by decide) (by decide) (by decide)⟩

/-- Translation of the linear search in `BattleBgModule.readFromProject`: the
`for (tg, a) in self._bbgGfxArrs: if (tg == ntg) and (a == na): break; j += 1`
loop, returning the index of the first structurally equal element if any.
Payload equality is spec-modelled as structural (deep) equality, since the
payload classes (`EbTileGraphics`, `EbArrangement`, `EbPalettes` in
`CompressedGraphicsModule`) are not in `src/` and the spec requires
value-equality over the canonical decoded form. -/
def bbgFind {α : Type} [DecidableEq α] (p : α) : List α → Option Nat
  | [] => none
  | q :: rest => if q = p then some 0 else Option.map (fun j => j + 1) (bbgFind p rest)

/-- Translation of one iteration of `BattleBgModule.readFromProject`'s dedup
logic (the for-else): on a hit the accumulated list is unchanged and the table
index is the position of the first equal element; on a miss the payload is
appended and the index is the old length. -/
def bbgStep {α : Type} [DecidableEq α] (acc : List α) (p : α) : List α × Nat :=
  match bbgFind p acc with
  | some j => (acc, j)
  | none => (acc ++ [p], acc.length)

theorem bbgFind_eq_none {α : Type} [DecidableEq α] (p : α) (acc : List α) :
    bbgFind p acc = none ↔ p ∉ acc := by
  induction acc with
  | nil => simp [bbgFind]
  | cons q rest ih =>
    by_cases hq : q = p
    · subst hq
      simp [bbgFind]
    · rw [bbgFind, if_neg hq, Option.map_eq_none', ih]
      simp only [List.mem_cons, not_or]
      constructor
      · intro h
        exact ⟨fun e => hq e.symm, h⟩
      · intro h
        exact h.2

theorem bbgFind_first {α : Type} [DecidableEq α] (p : α) (acc : List α) (j : Nat)
    (h : bbgFind p acc = some j) :
    acc.get? j = some p ∧ ∀ k, k < j → acc.get? k ≠ some p := by
  induction acc generalizing j with
  | nil => simp [bbgFind] at h
  | cons q rest ih =>
    by_cases hq : q = p
    · rw [bbgFind, if_pos hq] at h
      cases h
      subst hq
      exact ⟨rfl, fun k hk => absurd hk (by omega)⟩
    · rw [bbgFind, if_neg hq] at h
      cases e : bbgFind p rest with
      | none => rw [e] at h; simp at h
      | some j2 =>
        rw [e] at h
        rw [Option.map_some'] at h
        cases h
        refine ⟨(ih j2 e).1, fun k hk => ?_⟩
        cases k with
        | zero =>
          simp only [List.get?]
          intro hc
          exact hq (Option.some.inj hc)
        | succ k2 => exact (ih j2 e).2 k2 (by omega)

theorem bbgFind_append_self {α : Type} [DecidableEq α] (p : α) (acc : List α)
    (h : p ∉ acc) : bbgFind p (acc ++ [p]) = some acc.length := by
  induction acc with
  | nil => simp [bbgFind]
  | cons q rest ih =>
    simp only [List.mem_cons, not_or] at h
    have hq : q ≠ p := fun e => h.1 e.symm
    have hc : (q :: rest) ++ [p] = q :: (rest ++ [p]) := rfl
    rw [hc, bbgFind, if_neg hq, ih h.2]
    rfl

/-- C7: deduplication in `BattleBgModule.readFromProject` is by structural
equality with the first occurrence winning: when the decoded payload equals an
element already in the accumulated list, nothing is appended and the assigned
table index is the position of the first equal element; only on a miss is the
payload appended (one materialization per distinct payload); hence processing
the same payload a second time leaves the list unchanged and assigns the first
occurrence's index. -/
theorem bbg_dedup_first_occurrence {α : Type} [DecidableEq α] (acc : List α)
    (p : α) :
    (p ∉ acc → bbgStep acc p = (acc ++ [p], acc.length)) ∧
    (∀ j, bbgFind p acc = some j →
      bbgStep acc p = (acc, j) ∧ acc.get? j = some p ∧
        ∀ k, k < j → acc.get? k ≠ some p) ∧
    (p ∈ acc → ∃ j, bbgFind p acc = some j) ∧
    bbgStep (bbgStep acc p).1 p = bbgStep acc p := by
  refine ⟨?_, ?_, ?_, ?_⟩
  · intro h
    rw [bbgStep, (bbgFind_eq_none p acc).mpr h]
  · intro j hj
    refine ⟨?_, bbgFind_first p acc j hj⟩
    rw [bbgStep, hj]
  · intro h
    cases e : bbgFind p acc with
    | none => exact absurd ((bbgFind_eq_none p acc).mp e) (by simp [h])
    | some j => exact ⟨j, rfl⟩
  · cases e : bbgFind p acc with
    | none =>
      have hmem : p ∉ acc := (bbgFind_eq_none p acc).mp e
      simp [bbgStep, e, bbgFind_append_self p acc hmem]
    | some j => simp [bbgStep, e]

/-- C7 witness: over `Nat` payloads, inserting unseen `9` into `[5, 7]`
appends it at index `2`; inserting `7` hits the existing element at index `1`
without appending; re-processing `7` afterwards changes nothing. -/
theorem bbg_dedup_first_occurrence_witness :
    bbgStep ([5, 7] : List Nat) 9 = ([5, 7, 9], 2) ∧
    bbgStep ([5, 7] : List Nat) 7 = ([5, 7], 1) ∧
    ([5, 7] : List Nat).get? 1 = some 7 ∧
    bbgStep (bbgStep ([5, 7] : List Nat) 7).1 7 = bbgStep ([5, 7] : List Nat) 7 :=
  ⟨(bbg_dedup_first_occurrence ([5, 7] : List Nat) 9).1 (by decide),
   ((bbg_dedup_first_occurrence ([5, 7] : List Nat) 7).2.1 1 (by decide)).1,
   ((bbg_dedup_first_occurrence ([5, 7] : List Nat) 7).2.1 1 (by decide)).2.1,
   (bbg_dedup_first_occurrence ([5, 7] : List Nat) 7).2.2.2⟩

/-- Emptiness test from the door-area loop of `DoorModule.write_to_rom`:
`(door_area is None) or (not door_area)` — a door area is empty when it is
`None` or contains no doors; an area is modelled by its door count. -/
def doorAreaIsEmpty : Option Nat → Bool
  | none => true
  | some n => n == 0

/-- Number of `rom.allocate` calls made by the door-area loop: exactly one per
non-empty area. -/
def countDoorAllocs : List (Option Nat) → Nat
  | [] => 0
  | a :: rest => (if doorAreaIsEmpty a then 0 else 1) + countDoorAllocs rest

/-- Translation of the door-area loop of `DoorModule.write_to_rom`. The
allocator is abstracted by an oracle `allocs`, where `allocs n` is the flat
offset returned by the `n`-th `rom.allocate` call of the run (call `0` is the
shared 2-byte empty area); `c` is the index of the next allocate call. For
entry `i` the loop records the 4-byte value that
`pointer_table.write_multi(i * 4, addr, 4)` stores, i.e. the mapped address
reduced mod `2^32`, paired with the index of the allocate call that follows
the loop. -/
def doorLoop (allocs : Nat → Nat) (emptyAddr : Int) :
    List (Option Nat) → Nat → List Int × Nat
  | [], c => ([], c)
  | a :: rest, c =>
    if doorAreaIsEmpty a then
      let r := doorLoop allocs emptyAddr rest c
      (emptyAddr % 4294967296 :: r.1, r.2)
    else
      let r := doorLoop allocs emptyAddr rest (c + 1)
      (to_snes_address (allocs c) % 4294967296 :: r.1, r.2)

/-- Observable result of `DoorModule.write_to_rom`: the shared empty-area
mapped address, the 4-byte pointer-table entries, the index of the allocate
call that places the pointer table (its position in the run's allocation
order), the table's flat offset, and the mapped addresses written through
`DOOR_TABLE_REFERENCES` (one `AsmPointerReference`). -/
structure DoorWriteResult where
  emptyAreaAddr : Int
  tableEntries : List Int
  tableAllocIdx : Nat
  tableAddr : Nat
  patchedRefs : List Int

/-- Translation of `DoorModule.write_to_rom` over the allocation oracle: the
empty area is allocated first, then one allocation per non-empty door area in
order, then the pointer table itself, and finally every reference in
`DOOR_TABLE_REFERENCES` is written with the table's mapped address. -/
def doorWriteToRom (allocs : Nat → Nat) (areas : List (Option Nat)) :
    DoorWriteResult :=
  let emptyAddr := to_snes_address (allocs 0)
  let r := doorLoop allocs emptyAddr areas 1
  { emptyAreaAddr := emptyAddr
    tableEntries := r.1
    tableAllocIdx := r.2
    tableAddr := allocs r.2
    patchedRefs := [to_snes_address (allocs r.2)] }

theorem doorLoop_snd (allocs : Nat → Nat) (e : Int) (areas : List (Option Nat)) :
    ∀ c, (doorLoop allocs e areas c).2 = c + countDoorAllocs areas := by
  induction areas with
  | nil => intro c; simp [doorLoop, countDoorAllocs]
  | cons a rest ih =>
    intro c
    cases ha : doorAreaIsEmpty a with
    | true =>
      simp [doorLoop, countDoorAllocs, ha, ih c]
    | false =>
      simp [doorLoop, countDoorAllocs, ha, ih (c + 1)]
      omega

theorem doorLoop_length (allocs : Nat → Nat) (e : Int)
    (areas : List (Option Nat)) :
    ∀ c, (doorLoop allocs e areas c).1.length = areas.length := by
  induction areas with
  | nil => intro c; simp [doorLoop]
  | cons a rest ih =>
    intro c
    cases ha : doorAreaIsEmpty a with
    | true => simp [doorLoop, ha, ih c]
    | false => simp [doorLoop, ha, ih (c + 1)]

theorem doorLoop_get (allocs : Nat → Nat) (e : Int) (areas : List (Option Nat)) :
    ∀ c i a, areas.get? i = some a →
      (doorLoop allocs e areas c).1.get? i =
        some (if doorAreaIsEmpty a then e % 4294967296
          else to_snes_address (allocs (c + countDoorAllocs (areas.take i)))
            % 4294967296) := by
  induction areas with
  | nil => intro c i a h; simp at h
  | cons b rest ih =>
    intro c i a h
    cases i with
    | zero =>
      rw [List.get?] at h
      injection h with hba
      subst hba
      cases hb : doorAreaIsEmpty b with
      | true => simp [doorLoop, hb]
      | false => simp [doorLoop, hb, countDoorAllocs]
    | succ i2 =>
      have h2 : rest.get? i2 = some a := h
      have ht : (b :: rest).take (i2 + 1) = b :: rest.take i2 := rfl
      rw [ht]
      cases hb : doorAreaIsEmpty b with
      | true =>
        have hrec := ih c i2 a h2
        simp only [doorLoop, hb, countDoorAllocs]
        simpa using hrec
      | false =>
        have hrec := ih (c + 1) i2 a h2
        rw [show c + 1 + countDoorAllocs (rest.take i2) =
            c + (1 + countDoorAllocs (rest.take i2)) from by omega] at hrec
        simp only [doorLoop, hb, countDoorAllocs]
        simpa using hrec

theorem countDoorAllocs_take_lt (areas : List (Option Nat)) :
    ∀ i a, areas.get? i = some a → doorAreaIsEmpty a = false →
      countDoorAllocs (areas.take i) < countDoorAllocs areas := by
  induction areas with
  | nil => intro i a h; simp at h
  | cons b rest ih =>
    intro i a h hne
    cases i with
    | zero =>
      rw [List.get?] at h
      injection h with hba
      subst hba
      simp [countDoorAllocs, hne]
    | succ i2 =>
      have h2 : rest.get? i2 = some a := h
      have ht : (b :: rest).take (i2 + 1) = b :: rest.take i2 := rfl
      rw [ht, countDoorAllocs, countDoorAllocs]
      have := ih i2 a h2 hne
      omega

theorem to_snes_mod32_of_small (v : Nat) (h : v < 0x400000) :
    to_snes_address v % 4294967296 = to_snes_address v := by
  unfold to_snes_address
  rw [if_neg (by omega)]
  omega

/-- C8: `DoorModule.write_to_rom` is two-phase: the pointer table's own
allocation is the run's allocate call number `1 + (number of non-empty
areas)`, strictly after the allocate call of every non-empty door area (the
empty area being call `0`); the 4-byte entry for area `i` holds the mapped
address of the allocation that placed area `i`'s data — the shared empty-area
address when area `i` is `None` or empty — and every pointer in
`DOOR_TABLE_REFERENCES` is then patched with the mapped address of the table
itself. Flat offsets returned by the allocator are below `0x400000` (the
image size), so the mapped addresses fit the 4-byte entries exactly. -/
theorem door_write_to_rom_spec (allocs : Nat → Nat) (areas : List (Option Nat))
    (hb : ∀ n, allocs n < 0x400000) :
    (doorWriteToRom allocs areas).tableEntries.length = areas.length ∧
    (∀ i a, areas.get? i = some a → doorAreaIsEmpty a = true →
      (doorWriteToRom allocs areas).tableEntries.get? i =
        some ((doorWriteToRom allocs areas).emptyAreaAddr)) ∧
    (∀ i a, areas.get? i = some a → doorAreaIsEmpty a = false →
      (doorWriteToRom allocs areas).tableEntries.get? i =
        some (to_snes_address (allocs (1 + countDoorAllocs (areas.take i)))) ∧
      1 + countDoorAllocs (areas.take i) <
        (doorWriteToRom allocs areas).tableAllocIdx) ∧
    (doorWriteToRom allocs areas).tableAllocIdx = 1 + countDoorAllocs areas ∧
    (doorWriteToRom allocs areas).tableAddr =
      allocs (doorWriteToRom allocs areas).tableAllocIdx ∧
    (doorWriteToRom allocs areas).patchedRefs =
      [to_snes_address ((doorWriteToRom allocs areas).tableAddr)] := by
  unfold doorWriteToRom
  dsimp only
  refine ⟨doorLoop_length allocs _ areas 1, ?_, ?_, ?_, rfl, rfl⟩
  · intro i a h ha
    rw [doorLoop_get allocs _ areas 1 i a h]
    simp [ha, to_snes_mod32_of_small (allocs 0) (hb 0)]
  · intro i a h ha
    constructor
    · rw [doorLoop_get allocs _ areas 1 i a h]
      simp [ha, to_snes_mod32_of_small _ (hb _)]
    · rw [doorLoop_snd allocs _ areas 1]
      have := countDoorAllocs_take_lt areas i a h ha
      omega
  · rw [doorLoop_snd allocs _ areas 1]

/-- Allocation oracle used by the C8 witness: every returned flat offset is
inside the 4 MB image. -/
def doorWitnessAllocs : Nat → Nat := fun n => 0x100000 + n % 0x1000

/-- Concrete door-area list for the C8 witness: a 2-door area, a `None` area,
an empty area, and a 1-door area. -/
def doorWitnessAreas : List (Option Nat) := [some 2, none, some 0, some 1]

/-- C8 witness: on the concrete oracle and area list, the pointer table's
entry count matches, its allocation is call `1 + 2 = 3` (after both non-empty
areas), the table offset is that call's result, the reference list is patched
with the table's mapped address, and entry `0` holds the first area's mapped
address while entry `1` holds the shared empty-area address. -/
theorem door_write_to_rom_spec_witness :
    (∀ n, doorWitnessAllocs n < 0x400000) ∧
    (doorWriteToRom doorWitnessAllocs doorWitnessAreas).tableEntries.length =
      doorWitnessAreas.length ∧
    (doorWriteToRom doorWitnessAllocs doorWitnessAreas).tableAllocIdx =
      1 + countDoorAllocs doorWitnessAreas ∧
    (doorWriteToRom doorWitnessAllocs doorWitnessAreas).tableAddr =
      doorWitnessAllocs
        (doorWriteToRom doorWitnessAllocs doorWitnessAreas).tableAllocIdx ∧
    (doorWriteToRom doorWitnessAllocs doorWitnessAreas).patchedRefs =
      [to_snes_address
        ((doorWriteToRom doorWitnessAllocs doorWitnessAreas).tableAddr)] ∧
    (doorWriteToRom doorWitnessAllocs doorWitnessAreas).tableEntries.get? 0 =
      some (to_snes_address (doorWitnessAllocs
        (1 + countDoorAllocs (doorWitnessAreas.take 0)))) ∧
    (doorWriteToRom doorWitnessAllocs doorWitnessAreas).tableEntries.get? 1 =
      some ((doorWriteToRom doorWitnessAllocs doorWitnessAreas).emptyAreaAddr) :=
  have hb : ∀ n, doorWitnessAllocs n < 0x400000 := fun n => by
    unfold doorWitnessAllocs
    omega
  ⟨hb,
   (door_write_to_rom_spec doorWitnessAllocs doorWitnessAreas hb).1,
   (door_write_to_rom_spec doorWitnessAllocs doorWitnessAreas hb).2.2.2.1,
   (door_write_to_rom_spec doorWitnessAllocs doorWitnessAreas hb).2.2.2.2.1,
   (door_write_to_rom_spec doorWitnessAllocs doorWitnessAreas hb).2.2.2.2.2,
   ((door_write_to_rom_spec doorWitnessAllocs doorWitnessAreas hb).2.2.1 0
      (some 2) rfl rfl).1,
   (door_write_to_rom_spec doorWitnessAllocs doorWitnessAreas hb).2.1 1
      none rfl rfl⟩

/-- Chunk size from `MapModule.write_to_rom`:
`chunk_size = 256 * int(map_height / 8)` with `map_height = len(self.tiles)`. -/
def map_chunk_size (tiles : List (List Nat)) : Nat := 256 * (tiles.length / 8)

/-- Observable result of the tail-chunk part of `MapModule.write_to_rom`: the
chunk size, the sizes of the block allocations it performs (eight tile blocks
of `chunk_size` bytes, then the single tail block of `chunk_size * 2` bytes),
the tail block's flat offset, and the mapped addresses written through
`TAIL_CHUNKS_REFERENCES` (bank byte + short pointer, first tail chunk) and
`TAIL_CHUNK_2_REFERENCES` (short pointer, second tail chunk). -/
structure MapWriteResult where
  chunk_size : Nat
  allocRequests : List Nat
  tailBlockAddr : Nat
  tailRef1Addr : Int
  tailRef2Addr : Int

/-- Translation of the tail-chunk logic of `MapModule.write_to_rom` over an
allocation oracle: `allocs n` is the flat offset returned by the `n`-th
`rom.allocate` call (calls `0..7` place the eight tile blocks, call `8` places
the one tail block `Block(chunk_size * 2)`). The first tail chunk's references
are written with `to_snes_address(tail_block_addr)` and the second tail
chunk's reference with `to_snes_address(tail_block_addr + chunk_size)`. -/
def mapWriteToRom (allocs : Nat → Nat) (tiles : List (List Nat)) :
    MapWriteResult :=
  { chunk_size := map_chunk_size tiles
    allocRequests :=
      List.replicate 8 (map_chunk_size tiles) ++ [2 * map_chunk_size tiles]
    tailBlockAddr := allocs 8
    tailRef1Addr := to_snes_address (allocs 8)
    tailRef2Addr := to_snes_address ((allocs 8 + map_chunk_size tiles : Nat)) }

/-- C10 as amended: the tail data is allocated as one single block of size
`2 * chunk_size` (allocate call `8`, after the eight tile blocks), the first
tail chunk's bank-byte and short-pointer references receive the block's start
address, the second tail chunk's short-pointer reference receives an address
exactly `chunk_size` bytes after the first (for flat offsets inside the
image), and `chunk_size = 256 * (map_height / 8)`; the two chunks are in the
same bank whenever the flat block does not straddle a `0x10000` bank
boundary, but that is not guaranteed in general (see the counterexample). -/
theorem map_tail_chunks (allocs : Nat → Nat) (tiles : List (List Nat)) :
    (mapWriteToRom allocs tiles).chunk_size = 256 * (tiles.length / 8) ∧
    (mapWriteToRom allocs tiles).allocRequests =
      List.replicate 8 ((mapWriteToRom allocs tiles).chunk_size) ++
        [2 * (mapWriteToRom allocs tiles).chunk_size] ∧
    (mapWriteToRom allocs tiles).tailBlockAddr = allocs 8 ∧
    (mapWriteToRom allocs tiles).tailRef1Addr = to_snes_address (allocs 8) ∧
    (allocs 8 + (mapWriteToRom allocs tiles).chunk_size < 0x400000 →
      (mapWriteToRom allocs tiles).tailRef2Addr =
        (mapWriteToRom allocs tiles).tailRef1Addr +
          ((mapWriteToRom allocs tiles).chunk_size : Int)) ∧
    (allocs 8 + (mapWriteToRom allocs tiles).chunk_size < 0x400000 →
      allocs 8 / 0x10000 =
          (allocs 8 + (mapWriteToRom allocs tiles).chunk_size) / 0x10000 →
      (mapWriteToRom allocs tiles).tailRef1Addr.toNat / 0x10000 =
        (mapWriteToRom allocs tiles).tailRef2Addr.toNat / 0x10000) := by
  refine ⟨rfl, rfl, rfl, rfl, ?_, ?_⟩
  · intro h
    simp only [mapWriteToRom] at h ⊢
    unfold to_snes_address
    rw [if_neg (by omega), if_neg (by omega)]
    push_cast
    omega
  · intro h hbank
    simp only [mapWriteToRom] at h hbank ⊢
    unfold to_snes_address
    rw [if_neg (by omega), if_neg (by omega)]
    omega

/-- Allocation oracle for the C10 witness. -/
def mapWitnessAllocs : Nat → Nat := fun n => 0x100000 + n * 0x4000

/-- A 16-row map for the C10 witness (`chunk_size = 512`). -/
def mapWitnessTiles : List (List Nat) := List.replicate 16 []

/-- C10 witness: on the concrete oracle and a 16-row map, the chunk size is
`256 * (16 / 8) = 512`, the first tail chunk's references get the tail block's
mapped start address, the second gets exactly `chunk_size` more, and here the
non-straddling block keeps both chunks in one bank. -/
theorem map_tail_chunks_witness :
    (mapWriteToRom mapWitnessAllocs mapWitnessTiles).chunk_size =
      256 * (mapWitnessTiles.length / 8) ∧
    (mapWriteToRom mapWitnessAllocs mapWitnessTiles).tailRef1Addr =
      to_snes_address (mapWitnessAllocs 8) ∧
    (mapWriteToRom mapWitnessAllocs mapWitnessTiles).tailRef2Addr =
      (mapWriteToRom mapWitnessAllocs mapWitnessTiles).tailRef1Addr +
        ((mapWriteToRom mapWitnessAllocs mapWitnessTiles).chunk_size : Int) ∧
    (mapWriteToRom mapWitnessAllocs mapWitnessTiles).tailRef1Addr.toNat / 0x10000 =
      (mapWriteToRom mapWitnessAllocs mapWitnessTiles).tailRef2Addr.toNat / 0x10000 :=
  ⟨(map_tail_chunks mapWitnessAllocs mapWitnessTiles).1,
   (map_tail_chunks mapWitnessAllocs mapWitnessTiles).2.2.2.1,
   (map_tail_chunks mapWitnessAllocs mapWitnessTiles).2.2.2.2.1 (by decide),
   (map_tail_chunks mapWitnessAllocs mapWitnessTiles).2.2.2.2.2
     (by decide) (by decide)⟩

/-- Modelled from the spec: first-fit allocation over the sorted free-range
list (spec section 4.2) — the real allocator (`Block.allocate`, not in
`src/`) scans free ranges in ascending order and takes the first one large
enough, splitting off the remainder. Ranges are `(start, end-inclusive)` flat
offsets; the map-module allocations pass no placement predicate, so the
default always-true predicate applies. -/
def allocateFirstFit : List (Nat × Nat) → Nat → Option (Nat × List (Nat × Nat))
  | [], _ => none
  | (b, e) :: rest, size =>
    if b + size ≤ e + 1 then
      some (b, if b + size ≤ e then (b + size, e) :: rest else rest)
    else
      match allocateFirstFit rest size with
      | none => none
      | some (off, rest2) => some (off, (b, e) :: rest2)

/-- Runs a sequence of first-fit allocations, threading the free-range list
and collecting the returned offsets in order. -/
def allocateSeq : List Nat → List (Nat × Nat) → Option (List Nat × List (Nat × Nat))
  | [], ranges => some ([], ranges)
  | s :: sizes, ranges =>
    match allocateFirstFit ranges s with
    | none => none
    | some (off, ranges2) =>
      match allocateSeq sizes ranges2 with
      | none => none
      | some (offs, r3) => some (off :: offs, r3)

/-- A 240-row map, a legal resized-map input (`chunk_size = 0x1E00`). -/
def mapCounterTiles : List (List Nat) := List.replicate 240 []

/-- Oracle realized by running the spec-modelled first-fit allocator on the
map module's own allocation request sizes, seeded with the module's first
declared free range, `from_snes_address(0xD60000) .. from_snes_address(0xD7A800 - 1)`,
i.e. flat `(0x160000, 0x17A7FF)`. -/
def mapCounterAllocs (n : Nat) : Nat :=
  match allocateSeq
      ((mapWriteToRom (fun _ => 0) mapCounterTiles).allocRequests)
      [(0x160000, 0x17A7FF)] with
  | some r => r.1.getD n 0
  | none => 0

/-- C10 counterexample: the two tail chunks are NOT always in the same bank.
With a 240-row map and the allocator seeded with the map module's own first
free range, the tail block lands at flat `0x16F000` with
`chunk_size = 0x1E00`, so the first chunk's mapped address is `0xD6F000`
(bank `0xD6`) while the second chunk's is `0xD70E00` (bank `0xD7`): the
single contiguous allocation straddles the bank boundary. -/
theorem map_tail_chunks_banks_differ :
    (mapWriteToRom mapCounterAllocs mapCounterTiles).tailRef1Addr.toNat / 0x10000
      = 0xD6 ∧
    (mapWriteToRom mapCounterAllocs mapCounterTiles).tailRef2Addr.toNat / 0x10000
      = 0xD7 ∧
    (0xD6 : Nat) ≠ 0xD7 := by
  decide
